import Mathlib

/-!
# Verification of the search-matching routine of a static-website script

This file gives a shallow embedding, in Lean 4, of the client-side search
code of the website script (`onSearchChange` and its collaborators) and
proves properties of it.

The embedding mirrors the JavaScript source:

* `search_data.json` (fields `sites`, `score_confs`, `words`) becomes the
  structure `SearchData`: a list of `SiteRecord`s, a list of score buckets
  (each a list of site indices), and an association list from normalized
  words to bucket identifiers.
* The query normalization `text.normalize('NFKD').replace(/[̀-ͯ]/g, "")`
  becomes `normalizeStr`: a per-character NFKD decomposition followed by a
  filter removing combining diacritical marks U+0300–U+036F.  The NFKD
  decomposition of the JavaScript runtime is driven by the Unicode
  character database; here it is modelled by the finite decomposition
  table `nfkdChar`, covering the common Latin precomposed letters and
  mapping every other character to itself.
* `text.split(' ')` becomes `splitOnSpace`, reproducing the ECMAScript
  semantics (the empty string splits to `[""]`, adjacent separators
  produce empty tokens).
* The accumulation loops of `onSearchChange` become `innerLoop` (the
  `for (const word_site_idx of word_sites_idx)` loop, with its
  deduplication check and its capacity break) and `accumSites` (the
  `for (const word of words)` loop).  The property read
  `search_words[word]` is modelled with its prototype chain (`JsValue`):
  an `Object.prototype` property name yields a defined inherited value
  that defeats the `undefined` guard.  A JavaScript `TypeError` —
  iterating `undefined` after such a read, or when a word maps to an
  out-of-range bucket — is modelled by the `none` result.
* The rendering `while` loop becomes `renderFrom`/`renderSlots`, producing
  one `Slot` per display slot, and the early return when `search_words`
  is still `undefined` becomes the `notReady` outcome of `onSearchChange`.
-/

namespace Website

/-- A combining diacritical mark: code point in U+0300–U+036F, the range
removed by the source's `replace(/[̀-ͯ]/g, "")`. -/
def isCombining (c : Char) : Bool :=
  0x300 ≤ c.toNat && c.toNat ≤ 0x36F

/-- The finite NFKD decomposition table modelling the JavaScript
`String.prototype.normalize('NFKD')`: the common Latin precomposed
letters, each mapped to its base letter followed by its combining mark. -/
def nfkdTable : List (Char × List Char) :=
  [ ('à', ['a', '\u0300']), ('á', ['a', '\u0301']), ('â', ['a', '\u0302']),
    ('ã', ['a', '\u0303']), ('ä', ['a', '\u0308']), ('ç', ['c', '\u0327']),
    ('è', ['e', '\u0300']), ('é', ['e', '\u0301']), ('ê', ['e', '\u0302']),
    ('ë', ['e', '\u0308']), ('ì', ['i', '\u0300']), ('í', ['i', '\u0301']),
    ('î', ['i', '\u0302']), ('ï', ['i', '\u0308']), ('ñ', ['n', '\u0303']),
    ('ò', ['o', '\u0300']), ('ó', ['o', '\u0301']), ('ô', ['o', '\u0302']),
    ('õ', ['o', '\u0303']), ('ö', ['o', '\u0308']), ('ù', ['u', '\u0300']),
    ('ú', ['u', '\u0301']), ('û', ['u', '\u0302']), ('ü', ['u', '\u0308']) ]

/-- First-match lookup in the decomposition table. -/
def lookupDecomp : List (Char × List Char) → Char → Option (List Char)
  | [], _ => none
  | (k, v) :: rest, c => if k = c then some v else lookupDecomp rest c

/-- NFKD decomposition of a single character: its table entry when it
has one, itself otherwise. -/
def nfkdChar (c : Char) : List Char :=
  match lookupDecomp nfkdTable c with
  | some ds => ds
  | none => [c]

/-- `text.normalize('NFKD').replace(/[̀-ͯ]/g, "")` on a list of
characters: decompose every character, then remove the combining marks. -/
def normalizeChars (cs : List Char) : List Char :=
  (cs.flatMap nfkdChar).filter (fun c => !(isCombining c))

/-- The query normalization of `onSearchChange`, as a `String` function. -/
def normalizeStr (s : String) : String :=
  String.mk (normalizeChars s.data)

/-- ECMAScript `split(' ')` on a list of characters: the empty input
yields one empty token, and adjacent separators yield empty tokens. -/
def splitOnSpace : List Char → List (List Char)
  | [] => [[]]
  | c :: rest =>
    match splitOnSpace rest with
    | [] => [[]]
    | w :: ws => if c = ' ' then [] :: w :: ws else (c :: w) :: ws

/-- `text.normalize('NFKD').replace(...).split(' ')`: the token sequence
the matcher iterates over. -/
def tokenize (text : String) : List String :=
  (splitOnSpace (normalizeChars text.data)).map String.mk

/-- One entry of the `sites` array of `search_data.json`. -/
structure SiteRecord where
  title : String
  path : String
  deriving DecidableEq

/-- The three fields of `search_data.json` held by the page after the
fetch completes: `search_sites`, `search_confs` and `search_words` (the
JSON object is modelled as an association list). -/
structure SearchData where
  sites : List SiteRecord
  confs : List (List Nat)
  words : List (String × Nat)
  deriving DecidableEq

/-- Own-key lookup in the JSON-parsed words object: the key/value pairs
the index file actually contains. -/
def lookupOwn : List (String × Nat) → String → Option Nat
  | [], _ => none
  | (k, v) :: rest, w => if k = w then some v else lookupOwn rest w

/-- The property names a JSON-parsed plain object inherits from
`Object.prototype`: reading one of these on `search_words` yields a
defined (function or object) value even though the index has no such
word. -/
def protoProps : List String :=
  [ "constructor", "hasOwnProperty", "isPrototypeOf", "propertyIsEnumerable",
    "toLocaleString", "toString", "valueOf", "__defineGetter__",
    "__defineSetter__", "__lookupGetter__", "__lookupSetter__", "__proto__" ]

/-- The possible results of the JavaScript property read
`search_words[word]`. -/
inductive JsValue where
  /-- An own key of the JSON object: its bucket identifier. -/
  | number (conf : Nat) : JsValue
  /-- A property inherited from `Object.prototype`: defined, but not a
  bucket identifier. -/
  | inherited : JsValue
  /-- No own or inherited property of that name: `undefined`. -/
  | undefined : JsValue
  deriving DecidableEq

/-- JavaScript property access `search_words[word]`, prototype chain
included: an own key yields its bucket, an `Object.prototype` property
name yields the inherited value, anything else is `undefined`. -/
def lookupWord (words : List (String × Nat)) (w : String) : JsValue :=
  match lookupOwn words w with
  | some conf => .number conf
  | none => if w ∈ protoProps then .inherited else .undefined

/-- The inner loop of `onSearchChange`:
`for (const word_site_idx of word_sites_idx) { if (sites.includes(...)) continue; sites.push(...); if (sites.length >= search_options.length) break }`.
`capacity` is `search_options.length`. -/
def innerLoop (capacity : Nat) : List Nat → List Nat → List Nat
  | [], sites => sites
  | idx :: rest, sites =>
    if idx ∈ sites then innerLoop capacity rest sites
    else
      let sites' := sites ++ [idx]
      if capacity ≤ sites'.length then sites'
      else innerLoop capacity rest sites'

/-- The outer loop of `onSearchChange` over the query tokens.  Words
whose read is `undefined` are skipped by the
`if (word_conf === undefined) continue` guard.  A word that hits an
inherited `Object.prototype` property defeats that guard:
`search_confs[word_conf]` is then `undefined` and the
`for (const word_site_idx of ...)` throws a `TypeError`, modelled by
`none` — as is the `TypeError` for an own bucket identifier out of range
of `search_confs`. -/
def accumSites (d : SearchData) (capacity : Nat) :
    List String → List Nat → Option (List Nat)
  | [], sites => some sites
  | t :: rest, sites =>
    match lookupWord d.words t with
    | .undefined => accumSites d capacity rest sites
    | .inherited => none
    | .number conf =>
      match d.confs[conf]? with
      | none => none
      | some bucket => accumSites d capacity rest (innerLoop capacity bucket sites)

/-- The accumulated site-index list of one query: normalize, split on
spaces, and run the accumulation loops starting from `let sites = []`. -/
def matchSites (d : SearchData) (capacity : Nat) (text : String) : Option (List Nat) :=
  accumSites d capacity (tokenize text) []

/-- `site['path'][0] == '/' ? '' : '_blank'` — on the empty path the
JavaScript index access yields `undefined`, which is not `'/'`. -/
def renderTarget (path : String) : String :=
  if path.data.head? = some '/' then "" else "_blank"

/-- The spec's reading of the external-link test: the path begins with
the path-root marker `/`.  Stated from the spec's words, to be compared
with the code's `renderTarget`. -/
def specBeginsWithRoot (path : String) : Bool :=
  match path.data with
  | '/' :: _ => true
  | _ => false

/-- The DOM state of one result slot after a rendering pass: the
`disabled` class, `href`, the title text, the link text and `target`. -/
structure Slot where
  disabled : Bool
  href : String
  title : String
  link : String
  target : String
  deriving DecidableEq

/-- The `else` branch of the rendering loop: the explicit empty marker. -/
def emptySlot : Slot :=
  { disabled := true, href := "/", title := "", link := "", target := "" }

/-- One iteration of the rendering `while` loop, for slot `i`: populated
from `search_sites[sites[i]]` when `i < sites.length`, reset to the empty
marker otherwise.  `none` models the `TypeError` thrown when `sites[i]`
is out of range of `search_sites`. -/
def renderSlot (d : SearchData) (sites : List Nat) (i : Nat) : Option Slot :=
  match sites[i]? with
  | some siteIdx =>
    match d.sites[siteIdx]? with
    | none => none
    | some site =>
      some { disabled := false, href := site.path, title := site.title,
             link := site.path, target := renderTarget site.path }
  | none => some emptySlot

/-- The rendering `while (index < search_options.length)` loop, from slot
`i` with `n` slots remaining. -/
def renderFrom (d : SearchData) (sites : List Nat) : Nat → Nat → Option (List Slot)
  | _, 0 => some []
  | i, n + 1 =>
    match renderSlot d sites i, renderFrom d sites (i + 1) n with
    | some s, some rest => some (s :: rest)
    | _, _ => none

/-- All `search_options.length` display slots written by one pass. -/
def renderSlots (d : SearchData) (sites : List Nat) (capacity : Nat) : Option (List Slot) :=
  renderFrom d sites 0 capacity

/-- The observable outcome of one `onSearchChange` call. -/
inductive SearchOutcome where
  /-- The early `return` when `search_words` is still `undefined`. -/
  | notReady : SearchOutcome
  /-- A completed pass: the accumulated site indices and the slot states. -/
  | rendered (sitesAcc : List Nat) (slots : List Slot) : SearchOutcome
  /-- A `TypeError` escaped (out-of-range bucket or site index). -/
  | error : SearchOutcome
  deriving DecidableEq

/-- The whole `onSearchChange` handler: `st` is the shared index state,
`none` before `read_search_data` resolves; `capacity` is
`search_options.length`; `text` is `search_textbox.value`. -/
def onSearchChange (st : Option SearchData) (capacity : Nat) (text : String) :
    SearchOutcome :=
  match st with
  | none => .notReady
  | some d =>
    match matchSites d capacity text with
    | none => .error
    | some acc =>
      match renderSlots d acc capacity with
      | none => .error
      | some slots => .rendered acc slots

/-- The index data of the spec's worked example:
`words = {"cat": 0, "dog": 1}`, `score_confs = [[2,5],[5,7]]`,
`sites[2]` titled A, `sites[5]` titled B, `sites[7]` titled C (the other
positions hold filler records). -/
def exampleData : SearchData where
  sites :=
    [ { title := "S0", path := "/s0" }, { title := "S1", path := "/s1" },
      { title := "A", path := "/a" }, { title := "S3", path := "/s3" },
      { title := "S4", path := "/s4" }, { title := "B", path := "/b" },
      { title := "S6", path := "/s6" }, { title := "C", path := "https://c.example" } ]
  confs := [[2, 5], [5, 7]]
  words := [("cat", 0), ("dog", 1)]

/-- A second small index: two words in disjoint singleton buckets. -/
def exampleData2 : SearchData where
  sites := [ { title := "X", path := "/x" }, { title := "Y", path := "/y" } ]
  confs := [[0], [1]]
  words := [("x", 0), ("y", 1)]

/-- The bucket lists the accumulation loop consults for a token
sequence: one list per token that is present in the word index and whose
bucket identifier is in range. -/
def consulted (d : SearchData) (tokens : List String) : List (List Nat) :=
  tokens.filterMap (fun t =>
    match lookupWord d.words t with
    | .number conf => d.confs[conf]?
    | _ => none)

/-- The slot state produced for the example site A. -/
def slotA : Slot :=
  { disabled := false, href := "/a", title := "A", link := "/a", target := "" }

/-- The slot state produced for the example site B. -/
def slotB : Slot :=
  { disabled := false, href := "/b", title := "B", link := "/b", target := "" }

/-- The slot state produced for the example site C (an external URL). -/
def slotC : Slot :=
  { disabled := false, href := "https://c.example", title := "C",
    link := "https://c.example", target := "_blank" }

/-! ## Helper lemmas about the accumulation loops -/

/-- The inner loop only appends: its result is the incoming `sites`
followed by some subsequence of the bucket, and it preserves
duplicate-freedom (each pushed index passed the `includes` check). -/
theorem innerLoop_append (capacity : Nat) (bucket : List Nat) :
    ∀ sites : List Nat, ∃ e, innerLoop capacity bucket sites = sites ++ e ∧
      e.Sublist bucket ∧ (sites.Nodup → (sites ++ e).Nodup) := by
  induction bucket with
  | nil =>
    intro sites
    exact ⟨[], by simp [innerLoop], List.nil_sublist _, fun h => by simpa using h⟩
  | cons idx rest ih =>
    intro sites
    simp only [innerLoop]
    split_ifs with hmem hcap
    · obtain ⟨e, h1, h2, h3⟩ := ih sites
      exact ⟨e, h1, h2.cons idx, h3⟩
    · have hdisj : sites.Disjoint [idx] := fun a ha hb => by
        rw [List.mem_singleton] at hb; subst hb; exact hmem ha
      exact ⟨[idx], rfl, List.Sublist.cons₂ idx (List.nil_sublist rest),
        fun hnd => List.nodup_append.mpr ⟨hnd, List.nodup_singleton idx, hdisj⟩⟩
    · have hdisj : sites.Disjoint [idx] := fun a ha hb => by
        rw [List.mem_singleton] at hb; subst hb; exact hmem ha
      obtain ⟨e, h1, h2, h3⟩ := ih (sites ++ [idx])
      refine ⟨idx :: e, ?_, List.Sublist.cons₂ idx h2, ?_⟩
      · rw [h1, List.append_assoc, List.singleton_append]
      · intro hnd
        have hnd' : (sites ++ [idx]).Nodup :=
          List.nodup_append.mpr ⟨hnd, List.nodup_singleton idx, hdisj⟩
        have h4 := h3 hnd'
        rwa [List.append_assoc, List.singleton_append] at h4

/-- Length bound for the inner loop: starting from `sites`, the loop
never grows the list past `max (sites.length + 1) capacity` — below
capacity it stops exactly when the capacity is reached, and at or above
capacity the very first push is followed by the `break`. -/
theorem innerLoop_length (capacity : Nat) (bucket : List Nat) :
    ∀ sites : List Nat,
      (innerLoop capacity bucket sites).length ≤ max (sites.length + 1) capacity := by
  induction bucket with
  | nil => intro sites; simp only [innerLoop]; omega
  | cons idx rest ih =>
    intro sites
    simp only [innerLoop]
    split_ifs with hmem hcap
    · have := ih sites
      omega
    · simp only [List.length_append, List.length_singleton]
      omega
    · have := ih (sites ++ [idx])
      simp only [List.length_append, List.length_singleton] at this hcap ⊢
      omega

/-- The outer loop only appends: a successful run from `sites` yields
`sites` followed by a subsequence of the concatenation of the consulted
bucket lists, and duplicate-freedom is preserved. -/
theorem accumSites_append (d : SearchData) (capacity : Nat) (tokens : List String) :
    ∀ sites out : List Nat, accumSites d capacity tokens sites = some out →
      ∃ e, out = sites ++ e ∧ e.Sublist (consulted d tokens).flatten ∧
        (sites.Nodup → out.Nodup) := by
  induction tokens with
  | nil =>
    intro sites out h
    simp only [accumSites, Option.some.injEq] at h
    exact ⟨[], by simp [← h], List.nil_sublist _, fun hnd => by simpa [← h] using hnd⟩
  | cons t rest ih =>
    intro sites out h
    simp only [accumSites] at h
    rcases hw : lookupWord d.words t with conf | _ | _
    · simp only [hw] at h
      rcases hc : d.confs[conf]? with _ | bucket
      · simp only [hc] at h
        exact Option.noConfusion h
      · simp only [hc] at h
        obtain ⟨e1, g1, g2, g3⟩ := innerLoop_append capacity bucket sites
        rw [g1] at h
        obtain ⟨e2, h1, h2, h3⟩ := ih (sites ++ e1) out h
        refine ⟨e1 ++ e2, ?_, ?_, ?_⟩
        · rw [h1, List.append_assoc]
        · have : (e1 ++ e2).Sublist (bucket ++ (consulted d rest).flatten) :=
            List.Sublist.append g2 h2
          simpa [consulted, List.filterMap_cons, hw, hc] using this
        · intro hnd
          exact h3 (g3 hnd)
    · simp only [hw] at h
      exact Option.noConfusion h
    · simp only [hw] at h
      obtain ⟨e, h1, h2, h3⟩ := ih sites out h
      refine ⟨e, h1, ?_, h3⟩
      simpa [consulted, List.filterMap_cons, hw] using h2

/-- Length bound for the outer loop: each token past the capacity point
contributes at most one site index, so a successful run from `sites` is
bounded by `max sites.length (capacity - 1) + tokens.length`. -/
theorem accumSites_length (d : SearchData) (capacity : Nat) (tokens : List String) :
    ∀ sites out : List Nat, accumSites d capacity tokens sites = some out →
      out.length ≤ max sites.length (capacity - 1) + tokens.length := by
  induction tokens with
  | nil =>
    intro sites out h
    simp only [accumSites, Option.some.injEq] at h
    subst h
    omega
  | cons t rest ih =>
    intro sites out h
    simp only [accumSites] at h
    rcases hw : lookupWord d.words t with conf | _ | _
    · simp only [hw] at h
      rcases hc : d.confs[conf]? with _ | bucket
      · simp only [hc] at h
        exact Option.noConfusion h
      · simp only [hc] at h
        have h1 := ih (innerLoop capacity bucket sites) out h
        have h2 := innerLoop_length capacity bucket sites
        simp only [List.length_cons]
        omega
    · simp only [hw] at h
      exact Option.noConfusion h
    · simp only [hw] at h
      have := ih sites out h
      simp only [List.length_cons]
      omega

/-- A run over tokens whose property reads are all `undefined` leaves
the accumulated list untouched (`continue` on every token). -/
theorem accumSites_all_unknown (d : SearchData) (capacity : Nat) (tokens : List String)
    (h : ∀ t ∈ tokens, lookupWord d.words t = .undefined) :
    ∀ sites : List Nat, accumSites d capacity tokens sites = some sites := by
  induction tokens with
  | nil => intro sites; rfl
  | cons t rest ih =>
    intro sites
    have ht : lookupWord d.words t = .undefined := h t (List.mem_cons_self t rest)
    simp only [accumSites, ht]
    exact ih (fun u hu => h u (List.mem_cons_of_mem t hu)) sites

/-! ## Helper lemmas about rendering -/

/-- A successful run of the rendering loop writes exactly `n` slots, and
the slot at offset `j` is the one `renderSlot` produces for index
`i + j`. -/
theorem renderFrom_spec (d : SearchData) (acc : List Nat) :
    ∀ (n i : Nat) (res : List Slot), renderFrom d acc i n = some res →
      res.length = n ∧ ∀ j, j < n → res[j]? = renderSlot d acc (i + j) := by
  intro n
  induction n with
  | zero =>
    intro i res h
    simp only [renderFrom, Option.some.injEq] at h
    subst h
    exact ⟨rfl, fun j hj => absurd hj (Nat.not_lt_zero j)⟩
  | succ n ih =>
    intro i res h
    simp only [renderFrom] at h
    rcases hs : renderSlot d acc i with _ | s
    · rw [hs] at h; exact Option.noConfusion h
    · rw [hs] at h
      rcases hr : renderFrom d acc (i + 1) n with _ | rest
      · rw [hr] at h; exact Option.noConfusion h
      · rw [hr] at h
        simp only [Option.some.injEq] at h
        subst h
        obtain ⟨hlen, hidx⟩ := ih (i + 1) rest hr
        refine ⟨by simp [hlen], fun j hj => ?_⟩
        match j with
        | 0 => simpa using hs.symm
        | j + 1 =>
          have := hidx j (by omega)
          simpa [Nat.add_comm, Nat.add_assoc, Nat.add_left_comm] using this

/-- The code's external-link test agrees with the spec's words: the
`target` is empty exactly when the path begins with the root marker, and
`_blank` exactly when it does not. -/
theorem renderTarget_spec (path : String) :
    (renderTarget path = "" ↔ specBeginsWithRoot path = true) ∧
    (renderTarget path = "_blank" ↔ specBeginsWithRoot path = false) := by
  rcases path with ⟨cs⟩
  rcases cs with _ | ⟨c, rest⟩
  · constructor <;> constructor <;> intro h <;> first | rfl | exact absurd h (by decide)
  · by_cases hc : c = '/'
    · subst hc
      refine ⟨⟨fun _ => rfl, fun _ => rfl⟩, ⟨fun h => ?_, fun h => ?_⟩⟩
      · exact absurd h (by simp [renderTarget])
      · exact absurd h (by simp [specBeginsWithRoot])
    · have h1 : renderTarget (String.mk (c :: rest)) = "_blank" := by
        simp only [renderTarget]
        rw [if_neg]
        simp only [List.head?, Option.some.injEq]
        exact fun h => hc h
      have h2 : specBeginsWithRoot (String.mk (c :: rest)) = false := by
        simp only [specBeginsWithRoot]
        split
        · rename_i heq
          cases heq
          exact absurd rfl hc
        · rfl
      rw [h1, h2]
      refine ⟨⟨fun h => ?_, fun h => ?_⟩, ⟨fun _ => rfl, fun _ => rfl⟩⟩
      · exact absurd h (by decide)
      · exact Bool.noConfusion h

/-! ## Helper lemmas about normalization -/

/-- A successful table lookup comes from a table entry. -/
theorem lookupDecomp_mem :
    ∀ (l : List (Char × List Char)) (c : Char) (ds : List Char),
      lookupDecomp l c = some ds → (c, ds) ∈ l := by
  intro l
  induction l with
  | nil => intro c ds h; exact Option.noConfusion h
  | cons p rest ih =>
    intro c ds h
    rcases p with ⟨k, v⟩
    simp only [lookupDecomp] at h
    split_ifs at h with hk
    · simp only [Option.some.injEq] at h
      subst hk h
      exact List.mem_cons_self _ _
    · exact List.mem_cons_of_mem _ (ih c ds h)

/-- Every character the decomposition table emits is itself fixed by the
table: the emitted base letters and combining marks have no further
decomposition. -/
theorem nfkdChar_fixed (c o : Char) (ho : o ∈ nfkdChar c) : nfkdChar o = [o] := by
  unfold nfkdChar at ho
  rcases hl : lookupDecomp nfkdTable c with _ | ds
  · simp only [hl, List.mem_singleton] at ho
    subst ho
    unfold nfkdChar
    rw [hl]
  · simp only [hl] at ho
    have hmem : (c, ds) ∈ nfkdTable := lookupDecomp_mem nfkdTable c ds hl
    have hall : ∀ p ∈ nfkdTable, ∀ o ∈ p.2, nfkdChar o = [o] := by decide
    exact hall (c, ds) hmem o ho

/-- A list of table-fixed characters is unchanged by decomposition. -/
theorem flatMap_nfkd_fixed :
    ∀ l : List Char, (∀ o ∈ l, nfkdChar o = [o]) → l.flatMap nfkdChar = l := by
  intro l
  induction l with
  | nil => intro _; rfl
  | cons a t ih =>
    intro h
    rw [List.flatMap_cons, h a (List.mem_cons_self a t),
      ih (fun o ho => h o (List.mem_cons_of_mem a ho)), List.singleton_append]

/-- Decompose-then-strip is idempotent on character lists. -/
theorem normalizeChars_idem (cs : List Char) :
    normalizeChars (normalizeChars cs) = normalizeChars cs := by
  unfold normalizeChars
  rw [flatMap_nfkd_fixed]
  · rw [List.filter_filter]
    simp only [Bool.and_self]
  · intro o ho
    have ho' := List.mem_of_mem_filter ho
    obtain ⟨c, _, hoc⟩ := List.mem_flatMap.mp ho'
    exact nfkdChar_fixed c o hoc

/-! ## The claims -/

/-- C1 is false as stated: with the example index data, capacity 1 and
query "cat dog", the matcher accumulates [2, 5] — two site indices, more
than the capacity — because the capacity check `break`s only out of the
inner bucket loop, never out of the token loop. -/
theorem C1_counterexample :
    matchSites exampleData 1 "cat dog" = some [2, 5] ∧
      1 < ([2, 5] : List Nat).length := by
  decide

/-- C1 (amended): for every index data, every positive capacity and every
query, the accumulated site-index list has length at most
`capacity + (number of tokens) - 1`: the inner loop stops exactly at
capacity, and each later token can append at most one further index
before its own break. -/
theorem C1_amended_length_bound (d : SearchData) (capacity : Nat) (text : String)
    (out : List Nat) (hcap : 0 < capacity)
    (h : matchSites d capacity text = some out) :
    out.length ≤ capacity + (tokenize text).length - 1 := by
  have hb := accumSites_length d capacity (tokenize text) [] out h
  simp only [List.length_nil] at hb
  omega

/-- C1 witness: the amended bound at the counterexample input. -/
theorem C1_amended_witness :
    0 < 1 ∧ matchSites exampleData 1 "cat dog" = some [2, 5] ∧
      ([2, 5] : List Nat).length ≤ 1 + (tokenize "cat dog").length - 1 :=
  ⟨by decide, by decide,
    C1_amended_length_bound exampleData 1 "cat dog" [2, 5] (by decide) (by decide)⟩

/-- C2 is false as stated: with two singleton buckets and capacity 1, the
token "x" alone already fills the capacity, yet the query "x y" still
processes the token "y" and appends a further site index — the outer loop
never stops. -/
theorem C2_counterexample :
    matchSites exampleData2 1 "x" = some [0] ∧
      matchSites exampleData2 1 "x y" = some [0, 1] := by
  decide

/-- C2 (amended): the capacity stop holds only inside one bucket — a
bucket entered below capacity never grows the accumulator past capacity —
while a bucket entered at or above capacity can still append one further
site index before its break; the outer token loop always continues. -/
theorem C2_amended_inner_stop (capacity : Nat) (bucket sites : List Nat) :
    (sites.length < capacity → (innerLoop capacity bucket sites).length ≤ capacity) ∧
    (capacity ≤ sites.length →
      (innerLoop capacity bucket sites).length ≤ sites.length + 1) := by
  have hb := innerLoop_length capacity bucket sites
  constructor <;> intro h <;> omega

/-- C2 witness: both inner-loop bounds at concrete inputs. -/
theorem C2_amended_witness :
    (innerLoop 2 [0, 1, 2, 3] []).length ≤ 2 ∧
      (innerLoop 1 [5, 6] [9]).length ≤ ([9] : List Nat).length + 1 :=
  ⟨(C2_amended_inner_stop 2 [0, 1, 2, 3] []).1 (by decide),
   (C2_amended_inner_stop 1 [5, 6] [9]).2 (by decide)⟩

/-- C3 is false as stated: with capacity 1 the matcher does not stop
immediately at capacity — the accumulated list for "cat dog" is [2, 5]
(A then B), not [2]. -/
theorem C3_counterexample :
    matchSites exampleData 1 "cat dog" = some [2, 5] ∧
      ([2, 5] : List Nat) ≠ [2] := by
  decide

/-- C3 (amended): with the example data, capacity 1 and query "cat dog"
the single display slot does show exactly A, but the matcher accumulates
[2, 5] (A and B): the break leaves only the inner loop, and the second
token appends one more index that rendering then ignores. -/
theorem C3_amended_example_capacity_one :
    onSearchChange (some exampleData) 1 "cat dog" = .rendered [2, 5] [slotA] := by
  decide

/-- C4: with the example data, capacity 3 and query "cat dog" the matcher
accumulates [2, 5, 7] — B is deduplicated on its second occurrence in
bucket 1, C is appended from bucket 1 — and the three slots display
A, B, C. -/
theorem C4_example_capacity_three :
    onSearchChange (some exampleData) 3 "cat dog" =
      .rendered [2, 5, 7] [slotA, slotB, slotC] := by
  decide

/-- C5: for every index data, capacity and query, the accumulated list is
duplicate-free, and it is a subsequence of the concatenation of the
consulted bucket lists in token order — so the order is the deterministic
token-then-bucket order and only first occurrences are kept. -/
theorem C5_nodup_ordered (d : SearchData) (capacity : Nat) (text : String)
    (out : List Nat) (h : matchSites d capacity text = some out) :
    out.Nodup ∧ out.Sublist (consulted d (tokenize text)).flatten := by
  obtain ⟨e, h1, h2, h3⟩ := accumSites_append d capacity (tokenize text) [] out h
  rw [List.nil_append] at h1
  subst h1
  exact ⟨h3 List.nodup_nil, h2⟩

/-- C5 witness: duplicate-freedom and ordering at the worked example. -/
theorem C5_witness :
    matchSites exampleData 3 "cat dog" = some [2, 5, 7] ∧
      ([2, 5, 7] : List Nat).Nodup ∧
      ([2, 5, 7] : List Nat).Sublist (consulted exampleData (tokenize "cat dog")).flatten :=
  ⟨by decide, C5_nodup_ordered exampleData 3 "cat dog" [2, 5, 7] (by decide)⟩

/-- C6: a query event arriving while the index state is still unloaded
(`search_words` undefined) takes the early return: no slot is touched, no
index structure is dereferenced and no exception is raised, whatever the
query text and capacity. -/
theorem C6_not_ready (capacity : Nat) (text : String) :
    onSearchChange none capacity text = .notReady :=
  rfl

/-- C7 (code bug): the claim — every token lacking a word-index entry is
silently skipped, never an error — is the stated intent (the
`word_conf === undefined` guard, and the spec's error taxonomy and
propagation policy), but the code slips on the prototype chain: the
token "toString" has no entry in the example word index, yet
`search_words["toString"]` is the inherited `Object.prototype.toString`,
the guard does not fire, and the `for ... of` over
`search_confs[word_conf]` (`undefined`) throws a `TypeError` — modelled
by `none`.  An ordinary unknown token and the empty query's empty token
are skipped to the empty result as the claim says. -/
theorem C7_proto_token_throws :
    matchSites exampleData 3 "toString" = none ∧
      matchSites exampleData 3 "zebra" = some [] ∧
      matchSites exampleData 3 "" = some [] := by
  decide

/-- C8: the query normalization (NFKD decomposition, combining marks
U+0300–U+036F removed) is idempotent on every string, and the accented
and unaccented spellings of the same word normalize to the identical
token: normalize "café" = normalize "cafe". -/
theorem C8_normalization_idempotent :
    (∀ s : String, normalizeStr (normalizeStr s) = normalizeStr s) ∧
      normalizeStr "café" = normalizeStr "cafe" := by
  refine ⟨fun s => ?_, by decide⟩
  exact congrArg String.mk (normalizeChars_idem s.data)

/-- C9: a populated result slot has target "_blank" (external) exactly
when its path does not begin with the path-root marker '/', and the
empty target (same context) exactly when it does. -/
theorem C9_external_target (d : SearchData) (acc : List Nat) (i : Nat) (slot : Slot)
    (h : renderSlot d acc i = some slot) (hpop : slot.disabled = false) :
    (slot.target = "" ↔ specBeginsWithRoot slot.href = true) ∧
    (slot.target = "_blank" ↔ specBeginsWithRoot slot.href = false) := by
  unfold renderSlot at h
  rcases hai : acc[i]? with _ | idx
  · simp only [hai, Option.some.injEq] at h
    rw [← h] at hpop
    exact absurd hpop (by decide)
  · simp only [hai] at h
    rcases hs : d.sites[idx]? with _ | site
    · simp only [hs] at h
      exact Option.noConfusion h
    · simp only [hs, Option.some.injEq] at h
      subst h
      exact renderTarget_spec site.path

/-- C9 witness: the populated slot for site A. -/
theorem C9_witness :
    (slotA.target = "" ↔ specBeginsWithRoot slotA.href = true) ∧
    (slotA.target = "_blank" ↔ specBeginsWithRoot slotA.href = false) :=
  C9_external_target exampleData [2] 0 slotA (by decide) (by decide)

/-- C10: a completed rendering pass writes exactly `capacity` slots; the
slot at position i is populated from the i-th accumulated site index
whenever i is below the accumulated length, and is the explicit empty
marker otherwise — so at most `capacity` results are displayed even when
the accumulated list is longer. -/
theorem C10_rendering_slots (d : SearchData) (acc : List Nat) (capacity : Nat)
    (slots : List Slot) (h : renderSlots d acc capacity = some slots) :
    slots.length = capacity ∧
    (∀ i, i < capacity → acc.length ≤ i → slots[i]? = some emptySlot) ∧
    (∀ i, i < capacity → i < acc.length →
      ∃ idx site, acc[i]? = some idx ∧ d.sites[idx]? = some site ∧
        slots[i]? = some { disabled := false, href := site.path, title := site.title,
                           link := site.path, target := renderTarget site.path }) := by
  obtain ⟨hlen, hidx⟩ := renderFrom_spec d acc capacity 0 slots h
  refine ⟨hlen, fun i hi hle => ?_, fun i hi hlt => ?_⟩
  · have h0 := hidx i hi
    rw [Nat.zero_add] at h0
    rw [h0]
    unfold renderSlot
    simp only [List.getElem?_eq_none hle]
  · have h0 := hidx i hi
    rw [Nat.zero_add] at h0
    have hsome : acc[i]? = some acc[i] := List.getElem?_eq_getElem hlt
    rcases hs : d.sites[acc[i]]? with _ | site
    · exfalso
      have hnone : slots[i]? = none := by
        rw [h0]; unfold renderSlot; simp only [hsome, hs]
      have hlt2 : i < slots.length := by omega
      rw [List.getElem?_eq_getElem hlt2] at hnone
      exact Option.noConfusion hnone
    · refine ⟨acc[i], site, hsome, hs, ?_⟩
      rw [h0]
      unfold renderSlot
      simp only [hsome, hs]

/-- C10 witness: capacity 3 with two accumulated indices — both populated
slots and the explicit empty third slot. -/
theorem C10_witness :
    renderSlots exampleData [2, 5] 3 = some [slotA, slotB, emptySlot] ∧
      ([slotA, slotB, emptySlot] : List Slot).length = 3 ∧
      ([slotA, slotB, emptySlot] : List Slot)[2]? = some emptySlot := by
  refine ⟨by decide, ?_, ?_⟩
  · exact (C10_rendering_slots exampleData [2, 5] 3 [slotA, slotB, emptySlot] (by decide)).1
  · exact (C10_rendering_slots exampleData [2, 5] 3 [slotA, slotB, emptySlot]
      (by decide)).2.1 2 (by decide) (by decide)


end Website
